import Mathlib

/-!
# Verification of the AgentFlow core against its specification

Shallow embedding of the AgentFlow workflow core
(`backend/agentflow_core/runtime/{state,validator,builder,executor}.py` and
`api/models/workflow_model.py`) in Lean 4, together with theorems settling
the claims of the specification.

Python runtime values that flow through the state dictionaries are embedded
as the inductive type `Val`; Python `dict`s are embedded as association
lists (`Dict`), with `dlookup` giving their extensional (key -> value)
semantics, which is what Python dict equality observes.
-/

namespace AgentFlow

/-- Embedding of the Python runtime values stored in workflow state:
strings, integers, lists, dicts and `None`.  The float-typed `cost`
metric is carried as an integer placeholder only: no theorem below
relies on its arithmetic — Python float addition is not exactly
associative, and floating-point behaviour is outside this embedding. -/
inductive Val where
  | vs (s : String)
  | vi (n : Int)
  | vl (l : List Val)
  | vd (d : List (String × Val))
  | vnone

/-- A Python `dict` with string keys, as an association list (real dicts
have pairwise-distinct keys; lookups take the first match). -/
abbrev Dict := List (String × Val)

/-- First-match lookup in an association list (Python `d[k]` / `k in d`). -/
def dlookup {α : Type} : List (String × α) → String → Option α
  | [], _ => none
  | p :: rest, k => if p.1 = k then some p.2 else dlookup rest k

/-- Python dict assignment `d[k] = v`: update the existing entry in place,
else append a new one. -/
def dset {α : Type} : List (String × α) → String → α → List (String × α)
  | [], k, v => [(k, v)]
  | p :: rest, k, v => if p.1 = k then (k, v) :: rest else p :: dset rest k v

/-- Python `d.get(k, dflt)`. -/
def dget {α : Type} (d : List (String × α)) (k : String) (dflt : α) : α :=
  (dlookup d k).getD dflt

/-- Python truthiness of an embedded value (`bool(v)`): empty string, zero,
empty list, empty dict and `None` are falsy. -/
def truthy : Val → Bool
  | .vs s => !(s == "")
  | .vi n => !(n == 0)
  | .vl l => !l.isEmpty
  | .vd d => !d.isEmpty
  | .vnone => false

/-- The constructor kind of a value.  Each `GraphState` field holds values
of a single kind (the field's annotated type). -/
def vkind : Val → Nat
  | .vs _ => 0
  | .vi _ => 1
  | .vl _ => 2
  | .vd _ => 3
  | .vnone => 4

/-! ## `runtime/state.py`: reducers -/

/-- `merge_dict(left, right)` from `state.py`: `{**left, **right}`, right
takes precedence.  Keys of `left` keep their position (with `right`'s value
when present there); new keys of `right` are appended. -/
def merge_dict (l r : Dict) : Dict :=
  l.map (fun p => (p.1, dget r p.1 p.2)) ++
    r.filter (fun p => (dlookup l p.1).isNone)

/-- `replace_value(left, right)` from `state.py`: right wins. -/
def replace_value (_l r : Val) : Val := r

/-- `keep_first(left, right)` from `state.py`:
`left if left else right` under Python truthiness. -/
def keep_first (l r : Val) : Val := if truthy l then l else r

/-- `operator.add` at the list-annotated fields of `GraphState`
(`db_result`, `errors`, `execution_path`, `current_node`): concatenation. -/
def listAdd (l r : List Val) : List Val := l ++ r

/-- `operator.add` at the integer-typed metric field of `GraphState`
(`tokens_used`): exact integer addition of the increments.  The other
`operator.add` metric field, `cost`, is float-typed; IEEE float addition
is not exactly associative ((0.1+0.2)+0.4 differs from (0.1+0.4)+0.2)
and is not modelled by this definition. -/
def numAdd (a b : Int) : Int := a + b

/-- `operator.add` lifted to embedded values (the operand kinds always
agree in well-formed states; a mismatch would raise in Python and never
arises in the workflows considered here).  No delta in the runs
considered touches the float-typed `cost` field, whose floating-point
addition the integer branch does not model. -/
def addVal : Val → Val → Val
  | .vl a, .vl b => .vl (listAdd a b)
  | .vi a, .vi b => .vi (numAdd a b)
  | _, r => r

/-- `merge_dict` lifted to embedded values. -/
def mergeDictVal : Val → Val → Val
  | .vd a, .vd b => .vd (merge_dict a b)
  | _, r => r

/-! ## `runtime/state.py`: `GraphState` and `merge_state` -/

/-- The declared field names of the `GraphState` TypedDict
(`GraphState.__annotations__` in `state.py`). -/
def declaredKeys : List String :=
  ["user_input", "intent", "text_result", "image_result", "db_result",
   "api_result", "final_output", "tokens_used", "cost", "metadata",
   "errors", "execution_path", "current_node", "outputs"]

/-- `create_initial_state(user_input, **kwargs)` from `state.py`: the
default field values, overridden by the keyword arguments; unknown keyword
keys land in the `outputs` dict. -/
def create_initial_state (user_input : Val) (kwargs : List (String × Val)) :
    Dict :=
  let state : Dict :=
    [("user_input", user_input), ("intent", .vs ""), ("text_result", .vs ""),
     ("image_result", .vd []), ("db_result", .vl []), ("api_result", .vd []),
     ("final_output", .vnone), ("tokens_used", .vi 0), ("cost", .vi 0),
     ("metadata", .vd []), ("errors", .vl []), ("execution_path", .vl []),
     ("current_node", .vl []), ("outputs", .vd [])]
  kwargs.foldl
    (fun st kv =>
      if kv.1 ∈ declaredKeys then dset st kv.1 kv.2
      else dset st "outputs"
        (.vd (dset (match dget st "outputs" (.vd []) with
                    | .vd d => d
                    | _ => []) kv.1 kv.2)))
    state

/-- `merge_state(base, updates)` from `state.py`: shallow-copy the base
state and its `outputs` dict, route each update key either to the state
(declared keys) or to the copied `outputs` dict (custom keys), then store
the new `outputs` dict back.  The base state is never written to (the
embedding is pure; the Python source takes `dict(...)` copies first). -/
def merge_state (base : Dict) (updates : List (String × Val)) : Dict :=
  let new_outputs : Dict :=
    match dget base "outputs" (.vd []) with
    | .vd d => d
    | _ => []
  let r := updates.foldl
    (fun (p : Dict × Dict) kv =>
      if kv.1 ∈ declaredKeys then (dset p.1 kv.1 kv.2, p.2)
      else (p.1, dset p.2 kv.1 kv.2))
    (base, new_outputs)
  dset r.1 "outputs" (.vd r.2)

/-! ## `api/models/workflow_model.py`: the spec data model -/

/-- `NodeType` enum from `workflow_model.py`. -/
inductive NType where
  | input | router | llm | image | db | aggregator
  deriving DecidableEq, Repr

/-- `NodeType.value`: the enum's string value. -/
def NType.val : NType → String
  | .input => "input"
  | .router => "router"
  | .llm => "llm"
  | .image => "image"
  | .db => "db"
  | .aggregator => "aggregator"

/-- `SourceKind` enum from `workflow_model.py`. -/
inductive SKind where
  | llm | image | db | api
  deriving DecidableEq, Repr

/-- `NodeModel`: id, type and configuration.  A Python `metadata` of
`None` is embedded as the empty dict (every consumer first normalises it
with `node.metadata or {}`). -/
structure NodeM where
  id : String
  type : NType
  metadata : Dict

/-- `EdgeModel`: source, target(s), optional condition.  Python allows
`to` to be a single id or a list; both validator and builder immediately
normalise with `edge.to if isinstance(edge.to, list) else [edge.to]`, so
the embedding carries the normalised list. -/
structure EdgeM where
  from_node : String
  to_nodes : List String
  condition : Option String

/-- `QueueModel`: id, source and target (bandwidth is irrelevant here). -/
structure QueueM where
  id : String
  from_node : String
  to_node : String

/-- `SourceModel`: id, kind and configuration. -/
structure SourceM where
  id : String
  kind : SKind
  config : Dict

/-- `WorkflowSpecModel`: the full workflow specification. -/
structure WSpec where
  nodes : List NodeM
  edges : List EdgeM
  queues : List QueueM
  sources : List SourceM
  start_node : String

/-! ## `runtime/validator.py` -/

/-- `ValidationError` pydantic model from `validator.py`. -/
structure VErr where
  type : String
  message : String
  node_id : Option String
  field : Option String
  deriving DecidableEq, Repr

/-- A single-quote character, for the f-string messages of the source. -/
def sq : String := String.mk [Char.ofNat 39]

/-- Wrap a string in single quotes, as the source's f-strings do. -/
def q (s : String) : String := sq ++ s ++ sq

/-- `str(...)` of an embedded value as interpolated into the source's
messages (string values verbatim, ints by decimal; the container cases
never reach a message in the checks below). -/
def valStr : Val → String
  | .vs s => s
  | .vi n => toString n
  | .vnone => "None"
  | _ => ""

/-- `value in ids` for a set of strings: only a string value can be a
member. -/
def memStr (v : Val) (ids : List String) : Bool :=
  match v with
  | .vs s => ids.contains s
  | _ => false

/-- The duplicate-scan shared by nodes, sources and queues in
`_validate_no_duplicates`: walk the ids keeping a seen-set, emitting one
issue per id already seen. -/
def dupErrs (mk : String → VErr) : List String → List String → List VErr
  | [], _ => []
  | i :: rest, seen =>
    (if i ∈ seen then [mk i] else []) ++ dupErrs mk rest (i :: seen)

def mkDupNode (id : String) : VErr :=
  ⟨"duplicate_node_id", "Duplicate node ID: " ++ q id, some id, none⟩

def mkDupSource (id : String) : VErr :=
  ⟨"duplicate_source_id", "Duplicate source ID: " ++ q id, none,
   some "sources"⟩

def mkDupQueue (id : String) : VErr :=
  ⟨"duplicate_queue_id", "Duplicate queue ID: " ++ q id, none,
   some "queues"⟩

/-- `_validate_no_duplicates`. -/
def validate_no_duplicates (spec : WSpec) : List VErr :=
  dupErrs mkDupNode (spec.nodes.map (·.id)) [] ++
    dupErrs mkDupSource (spec.sources.map (·.id)) [] ++
    dupErrs mkDupQueue (spec.queues.map (·.id)) []

/-- `_validate_start_node`: missing (falsy) start node, else unknown id. -/
def validate_start_node (spec : WSpec) (node_ids : List String) :
    List VErr :=
  if spec.start_node = "" then
    [⟨"start_node_missing", "start_node is required", none,
      some "start_node"⟩]
  else if spec.start_node ∈ node_ids then []
  else
    [⟨"start_node_invalid",
      "start_node " ++ q spec.start_node ++ " does not exist in nodes",
      some spec.start_node, some "start_node"⟩]

def mkEdgeSrc (i : Nat) (f : String) : VErr :=
  ⟨"edge_source_invalid",
   "Edge source " ++ q f ++ " does not exist in nodes", some f,
   some ("edges[" ++ toString i ++ "].from")⟩

def mkEdgeTgt (i : Nat) (t : String) : VErr :=
  ⟨"edge_target_invalid",
   "Edge target " ++ q t ++ " does not exist in nodes", some t,
   some ("edges[" ++ toString i ++ "].to")⟩

/-- `_validate_edges` (the enumerate index only feeds the `field` text). -/
def edgeErrs (node_ids : List String) : Nat → List EdgeM → List VErr
  | _, [] => []
  | i, e :: rest =>
    (if e.from_node ∈ node_ids then [] else [mkEdgeSrc i e.from_node]) ++
      (e.to_nodes.filterMap fun t =>
        if t ∈ node_ids then none else some (mkEdgeTgt i t)) ++
      edgeErrs node_ids (i + 1) rest

def validate_edges (spec : WSpec) (node_ids : List String) : List VErr :=
  edgeErrs node_ids 0 spec.edges

def mkQueueSrc (i : Nat) (f : String) : VErr :=
  ⟨"queue_source_invalid",
   "Queue source " ++ q f ++ " does not exist in nodes", some f,
   some ("queues[" ++ toString i ++ "].from")⟩

def mkQueueTgt (i : Nat) (t : String) : VErr :=
  ⟨"queue_target_invalid",
   "Queue target " ++ q t ++ " does not exist in nodes", some t,
   some ("queues[" ++ toString i ++ "].to")⟩

/-- `_validate_queues`. -/
def queueErrs (node_ids : List String) : Nat → List QueueM → List VErr
  | _, [] => []
  | i, qu :: rest =>
    (if qu.from_node ∈ node_ids then [] else [mkQueueSrc i qu.from_node]) ++
      (if qu.to_node ∈ node_ids then [] else [mkQueueTgt i qu.to_node]) ++
      queueErrs node_ids (i + 1) rest

def validate_queues (spec : WSpec) (node_ids : List String) : List VErr :=
  queueErrs node_ids 0 spec.queues

/-- The `source_id` reference check shared by llm/image/db nodes:
`if source_id and source_id not in source_ids`. -/
def srcRefErrs (msgPrefix : String) (n : NodeM) (source_ids : List String) :
    List VErr :=
  let sid := dget n.metadata "source_id" .vnone
  if truthy sid && !(memStr sid source_ids) then
    [⟨"source_missing", msgPrefix ++ q (valStr sid), some n.id,
      some "metadata.source_id"⟩]
  else []

/-- The per-node branch of `_validate_nodes`. -/
def nodeCfgErrs (source_ids : List String) (n : NodeM) : List VErr :=
  match n.type with
  | .llm =>
    srcRefErrs "LLM node references non-existent source: " n source_ids ++
      (if !truthy (dget n.metadata "prompt" .vnone) &&
          !truthy (dget n.metadata "prompt_template" .vnone) then
        [⟨"metadata_missing",
          "LLM node requires " ++ q "prompt" ++ " or " ++
            q "prompt_template" ++ " in metadata",
          some n.id, some "metadata.prompt"⟩]
      else [])
  | .image =>
    srcRefErrs "Image node references non-existent source: " n source_ids
  | .db =>
    srcRefErrs "DB node references non-existent source: " n source_ids ++
      (if !truthy (dget n.metadata "query" .vnone) then
        [⟨"metadata_missing",
          "DB node requires " ++ q "query" ++ " in metadata",
          some n.id, some "metadata.query"⟩]
      else [])
  | .router =>
    if !truthy (dget n.metadata "routes" .vnone) &&
        !truthy (dget n.metadata "strategy" .vnone) then
      [⟨"metadata_missing",
        "Router node requires " ++ q "routes" ++ " or " ++ q "strategy" ++
          " in metadata",
        some n.id, some "metadata.routes"⟩]
    else []
  | _ => []

/-- `_validate_nodes`. -/
def nodesErrs (source_ids : List String) : List NodeM → List VErr
  | [] => []
  | n :: rest => nodeCfgErrs source_ids n ++ nodesErrs source_ids rest

/-- The per-source branch of `_validate_sources`. -/
def sourceCfgErrs (s : SourceM) : List VErr :=
  match s.kind with
  | .llm =>
    if !truthy (dget s.config "model" .vnone) &&
        !truthy (dget s.config "model_name" .vnone) then
      [⟨"metadata_missing",
        "LLM source " ++ q s.id ++ " requires " ++ q "model" ++
          " in config",
        none, some ("sources." ++ s.id ++ ".config.model")⟩]
    else []
  | .db =>
    if !truthy (dget s.config "connection_string_env" .vnone) &&
        !truthy (dget s.config "connection_string" .vnone) then
      [⟨"metadata_missing",
        "DB source " ++ q s.id ++ " requires " ++
          q "connection_string_env" ++ " in config",
        none, some ("sources." ++ s.id ++ ".config.connection_string_env")⟩]
    else []
  | _ => []

/-- `_validate_sources`. -/
def sourcesErrs : List SourceM → List VErr
  | [] => []
  | s :: rest => sourceCfgErrs s ++ sourcesErrs rest

/-- `_validate_orphaned_nodes`: a node (other than the start node) with no
incoming edge or queue is orphaned.  The Python code iterates the *set*
of node ids, whose order is unspecified; the embedding walks the distinct
ids in list order (every claim about this check is order-insensitive). -/
def orphanErrs (spec : WSpec) (node_ids : List String) : List VErr :=
  let incoming :=
    spec.edges.foldr (fun e acc => e.to_nodes ++ acc) [] ++
      spec.queues.map (·.to_node) ++ [spec.start_node]
  node_ids.dedup.filterMap fun nid =>
    if nid ∈ incoming then none
    else
      some ⟨"orphaned_node",
        "Node " ++ q nid ++ " has no incoming edges and is not reachable",
        some nid, none⟩

/-- `validate_workflow`: run every check and concatenate the issues (the
cycle check is commented out in the source). -/
def validate_workflow (spec : WSpec) : List VErr :=
  let node_ids := spec.nodes.map (·.id)
  let source_ids := spec.sources.map (·.id)
  validate_no_duplicates spec ++
    validate_start_node spec node_ids ++
    validate_edges spec node_ids ++
    validate_queues spec node_ids ++
    nodesErrs source_ids spec.nodes ++
    sourcesErrs spec.sources ++
    orphanErrs spec node_ids

/-! ## `runtime/builder.py`: edge wiring and conditional routing -/

/-- LangGraph's terminal marker `END` (the string sentinel `"__end__"`). -/
def ENDtok : String := "__end__"

/-- ASCII lower-casing, as Python's `str.lower()` behaves on the
identifier strings that reach it here. -/
def strLower (s : String) : String := String.mk (s.data.map Char.toLower)

/-- `p` is a prefix of `l` (helper for Python's `in` on strings). -/
def isPrefixB : List Char → List Char → Bool
  | [], _ => true
  | _ :: _, [] => false
  | a :: as, b :: bs => a == b && isPrefixB as bs

/-- Python's substring test `p in l` on the character lists of the two
strings (the empty string is a substring of everything). -/
def isInfixB (p : List Char) : List Char → Bool
  | [] => p.isEmpty
  | l@(_ :: bs) => isPrefixB p l || isInfixB p bs

/-- The string stored at a state field that the code calls `.lower()` on:
the field is string-typed, absence defaults to `""`. -/
def asStr : Val → String
  | .vs s => s
  | _ => ""

/-- The per-target test of `routing_function`: the two `if`s of the loop
body, which both return the target — exact case-insensitive equality, or
the intent contained in the target as a substring. -/
def routeMatch (intent target : String) : Bool :=
  strLower intent == strLower target ||
    isInfixB (strLower intent).data (strLower target).data

/-- `routing_function` from `builder.py` (`_add_conditional_edge`): read
`intent` from the merged state, scan the targets in listed order and
return the first one whose id case-insensitively equals the intent or
contains the intent as a substring; otherwise the first listed target
(or `END` when the target list is empty). -/
def routing_function (to_nodes : List String) (state : Dict) : String :=
  let intent := asStr (dget state "intent" (.vs ""))
  match to_nodes.find? (fun target => routeMatch intent target) with
  | some t => t
  | none =>
    match to_nodes with
    | [] => ENDtok
    | t :: _ => t

/-- The routing rule in the words of the specification (for comparison
with `routing_function`): the target whose id exactly equals the intent
value (case-insensitive), else the first target whose id is a
case-insensitive substring of the intent value, else the first listed
target. -/
def routing_function_spec (to_nodes : List String) (intent : String) :
    String :=
  match to_nodes.find? (fun t => strLower t == strLower intent) with
  | some t => t
  | none =>
    match to_nodes.find? (fun t =>
        isInfixB (strLower t).data (strLower intent).data) with
    | some t => t
    | none =>
      match to_nodes with
      | [] => ENDtok
      | t :: _ => t

/-- A compiled dispatch entry: a plain edge or a conditional dispatch
from a node over a list of candidate targets. -/
inductive Wire where
  | simple (src tgt : String)
  | cond (src : String) (targets : List String)
  deriving DecidableEq, Repr

/-- The `node_types = {node.id: node.type.value}` dict comprehension of
`_add_edges` (later entries override earlier ones). -/
def nodeTypes (nodes : List NodeM) : List (String × String) :=
  nodes.foldl (fun d n => dset d n.id n.type.val) []

/-- The wiring of one edge in `_add_edges`: a router source with several
targets, or any edge with a condition, becomes a conditional dispatch;
otherwise one simple edge per target, where a target spelled `end`
(case-insensitive) or `__end__` is wired to the terminal marker. -/
def edgeWires (tys : List (String × String)) (e : EdgeM) : List Wire :=
  let from_type := dget tys e.from_node ""
  if from_type = "router" ∧ 1 < e.to_nodes.length then
    [.cond e.from_node e.to_nodes]
  else if e.condition.isSome then
    [.cond e.from_node e.to_nodes]
  else
    e.to_nodes.map fun t =>
      if strLower t = "end" ∨ t = "__end__" then .simple e.from_node ENDtok
      else .simple e.from_node t

def wiresOfEdges (tys : List (String × String)) : List EdgeM → List Wire
  | [] => []
  | e :: rest => edgeWires tys e ++ wiresOfEdges tys rest

/-- The dead-end pass of `_add_edges`: a node that is the source of no
edge gets an auto-wire to the terminal marker only when its type is
`aggregator`. -/
def deadEndWires (edges : List EdgeM) : List NodeM → List Wire
  | [] => []
  | n :: rest =>
    (if edges.any (fun e => e.from_node == n.id) then []
     else if n.type = .aggregator then [.simple n.id ENDtok]
     else []) ++ deadEndWires edges rest

/-- `_add_edges` from `builder.py`, as the list of dispatch entries it
registers on the graph builder. -/
def add_edges (edges : List EdgeM) (nodes : List NodeM) : List Wire :=
  wiresOfEdges (nodeTypes nodes) edges ++ deadEndWires edges nodes

/-- The source node of a dispatch entry. -/
def Wire.src : Wire → String
  | .simple s _ => s
  | .cond s _ => s

/-! ## `runtime/executor.py`: `run_workflow` -/

/-- The per-field reducer table of `GraphState` (the `Annotated` reducer
attached to each field in `state.py`).  Keys outside the schema never
occur in engine deltas (LangGraph rejects unknown channels); the final
branch is unreachable in the runs considered. -/
def reducerFor (k : String) : Val → Val → Val :=
  if k ∈ ["db_result", "errors", "execution_path", "current_node",
          "tokens_used", "cost"] then addVal
  else if k ∈ ["image_result", "api_result", "metadata", "outputs"] then
    mergeDictVal
  else if k ∈ ["user_input", "intent", "text_result", "final_output"] then
    keep_first
  else replace_value

/-- Merge a step's delta into the accumulated state field by field, each
field through its reducer. -/
def applyDelta (st : Dict) (delta : List (String × Val)) : Dict :=
  delta.foldl
    (fun s kv => dset s kv.1 (reducerFor kv.1 (dget s kv.1 .vnone) kv.2)) st

/-- A compiled executable graph: entry node, bound step per node id, and
the dispatch table (state-dependent for conditional edges). -/
structure CompiledGraph where
  entry : String
  step : String → Option (Dict → Except String (List (String × Val)))
  dispatch : String → Dict → Option String

/-- Modelled from the spec: the execution-engine loop (`graph.invoke` is
LangGraph's, an external dependency not in the repository).  Start at the
entry; invoke the current step on the accumulated state; on success merge
its delta through the reducers and follow the dispatch table until the
terminal marker or a node with no dispatch entry; on step failure stop at
once.  The error additionally carries the accumulated state as of the
last successful merge, so theorems can compare it with what
`run_workflow` attaches (the Python exception carries no state).  The
fuel mirrors LangGraph's recursion limit. -/
def runEngine : Nat → CompiledGraph → String → Dict →
    Except (String × Dict) Dict
  | 0, _, _, st => .error ("recursion limit reached", st)
  | fuel + 1, g, current, st =>
    if current = ENDtok then .ok st
    else
      match g.step current with
      | none => .error ("unknown node: " ++ current, st)
      | some f =>
        match f st with
        | .error msg => .error (msg, st)
        | .ok delta =>
          let st2 := applyDelta st delta
          match g.dispatch current st2 with
          | none => .ok st2
          | some nxt => runEngine fuel g nxt st2

/-- `WorkflowExecutionError` from `utils/error_handler.py` (the fields
relevant here). -/
structure WorkflowExecutionError where
  message : String
  workflow_id : Option String
  partial_state : Dict

/-- `_prepare_initial_state` from `executor.py`: start from the default
state seeded with the caller's `user_input`, then overwrite with every
caller-provided key. -/
def prepare_initial_state (initial : Dict) : Dict :=
  initial.foldl (fun st kv => dset st kv.1 kv.2)
    (create_initial_state (dget initial "user_input" (.vs "")) [])

/-- `run_workflow` from `executor.py`: prepare the initial state, invoke
the compiled graph, and on any failure raise a `WorkflowExecutionError`
whose `partial_state` is the local variable `state` — the *prepared
initial* state (executor.py line 132).  The success branch's bookkeeping
(wall-clock metadata, execution registry) is outside the model. -/
def run_workflow (g : CompiledGraph) (initial : Dict)
    (workflow_id : Option String) : Except WorkflowExecutionError Dict :=
  let state := prepare_initial_state initial
  match runEngine 25 g g.entry state with
  | .ok result => .ok result
  | .error pe =>
    .error ⟨"Workflow execution failed: " ++ pe.1, workflow_id, state⟩

/-! ## Claim-side predicates and concrete instances -/

/-- The per-node-type required-configuration conditions, in the words of
the specification (an `llm` node needs a prompt or a prompt template, and
any `source_id` it names must resolve; a `db` node needs a query; a
`router` node needs routes or a strategy). -/
def nodeCfgOk (source_ids : List String) (n : NodeM) : Bool :=
  match n.type with
  | .llm =>
    (!truthy (dget n.metadata "source_id" .vnone) ||
        memStr (dget n.metadata "source_id" .vnone) source_ids) &&
      (truthy (dget n.metadata "prompt" .vnone) ||
        truthy (dget n.metadata "prompt_template" .vnone))
  | .image =>
    !truthy (dget n.metadata "source_id" .vnone) ||
      memStr (dget n.metadata "source_id" .vnone) source_ids
  | .db =>
    (!truthy (dget n.metadata "source_id" .vnone) ||
        memStr (dget n.metadata "source_id" .vnone) source_ids) &&
      truthy (dget n.metadata "query" .vnone)
  | .router =>
    truthy (dget n.metadata "routes" .vnone) ||
      truthy (dget n.metadata "strategy" .vnone)
  | _ => true

/-- The per-source-kind required-configuration conditions, in the words
of the specification. -/
def sourceCfgOk (s : SourceM) : Bool :=
  match s.kind with
  | .llm =>
    truthy (dget s.config "model" .vnone) ||
      truthy (dget s.config "model_name" .vnone)
  | .db =>
    truthy (dget s.config "connection_string_env" .vnone) ||
      truthy (dget s.config "connection_string" .vnone)
  | _ => true

/-- A specification in which every reference resolves and every config
requirement holds, but node `b` is the target of no edge or queue: two
`input` nodes, no edges, start node `a`. -/
def exOrphanSpec : WSpec :=
  ⟨[⟨"a", .input, []⟩, ⟨"b", .input, []⟩], [], [], [], "a"⟩

/-- The delta shape every node callable returns
(`create_node_wrapper` in `nodes/base_node.py`): the wrapper always adds
`execution_path = [node_id]` and `current_node = [node_id]` to whatever
the node logic changed. -/
def wrapDelta (id : String) (extra : List (String × Val)) :
    List (String × Val) :=
  ("execution_path", .vl [.vs id]) :: ("current_node", .vl [.vs id]) :: extra

/-- The compiled graph of the specification's end-to-end failure
scenario: `start → router → routeA`, where `start` and `router` succeed
(returning wrapper-shaped deltas) and `routeA` always raises. -/
def routeAFailGraph : CompiledGraph where
  entry := "start"
  step := fun id =>
    if id = "start" then some (fun _ => .ok (wrapDelta "start" []))
    else if id = "router" then
      some (fun _ => .ok (wrapDelta "router" [("intent", .vs "routeA")]))
    else if id = "routeA" then some (fun _ => .error "step failed: routeA")
    else none
  dispatch := fun id _ =>
    if id = "start" then some "router"
    else if id = "router" then some "routeA"
    else if id = "routeA" then some ENDtok
    else none

/-- A small fully well-formed specification: `a(input) → b(aggregator)`. -/
def exGoodSpec : WSpec :=
  ⟨[⟨"a", .input, []⟩, ⟨"b", .aggregator, []⟩], [⟨"a", ["b"], none⟩],
   [], [], "a"⟩

/-- The one issue `validate_workflow` reports on `exOrphanSpec`. -/
def orphanIssueB : VErr :=
  ⟨"orphaned_node",
   "Node " ++ q "b" ++ " has no incoming edges and is not reachable",
   some "b", none⟩

/-- The `outputs` dict stored in a state. -/
def outputsOf (st : Dict) : Dict :=
  match dget st "outputs" (.vd []) with
  | .vd d => d
  | _ => []

/-! # Theorems

First the generic lemmas about the dictionary embedding, then one section
per claim of the specification.
-/

/-! ### Extensional behaviour of `merge_dict` -/

theorem dlookup_map_override (l r : Dict) (k : String) :
    dlookup (l.map (fun p => (p.1, dget r p.1 p.2))) k =
      (dlookup l k).map (fun v => dget r k v) := by
  induction l with
  | nil => rfl
  | cons p rest ih =>
    by_cases h : p.1 = k
    · simp [dlookup, h]
    · simp [dlookup, h, ih]

theorem dlookup_filter_notin (l r : Dict) (k : String) :
    dlookup (r.filter (fun p => (dlookup l p.1).isNone)) k =
      if (dlookup l k).isNone then dlookup r k else none := by
  induction r with
  | nil => simp [dlookup]
  | cons p rest ih =>
    by_cases h : p.1 = k
    · subst h
      by_cases hl : (dlookup l p.1).isNone
      · simp [List.filter, hl, dlookup, ih]
      · simp [List.filter, hl, dlookup, ih]
    · by_cases hl : (dlookup l p.1).isNone
      · simp [List.filter, hl, dlookup, h, ih]
      · simp [List.filter, hl, dlookup, h, ih]

theorem dlookup_append (a b : Dict) (k : String) :
    dlookup (a ++ b) k = ((dlookup a k).or (dlookup b k)) := by
  induction a with
  | nil => simp [dlookup]
  | cons p rest ih =>
    by_cases h : p.1 = k
    · simp [dlookup, h]
    · simp [dlookup, h, ih]

/-- The key lemma: `merge_dict` looks up like right-biased union, which is
exactly what Python dict equality observes of `{**l, **r}`. -/
theorem dlookup_merge_dict (l r : Dict) (k : String) :
    dlookup (merge_dict l r) k = ((dlookup r k).or (dlookup l k)) := by
  unfold merge_dict
  rw [dlookup_append, dlookup_map_override, dlookup_filter_notin]
  cases hl : dlookup l k <;> cases hr : dlookup r k <;>
    simp [Option.or, dget, hl, hr]

/-! ### Lookup behaviour of `dset` -/

theorem dlookup_dset {α : Type} (d : List (String × α)) (k j : String)
    (v : α) :
    dlookup (dset d k v) j = if k = j then some v else dlookup d j := by
  induction d with
  | nil =>
    by_cases h : k = j <;> simp [dset, dlookup, h]
  | cons p rest ih =>
    by_cases hp : p.1 = k
    · by_cases h : k = j <;> simp [dset, dlookup, hp, h]
    · by_cases hj : p.1 = j
      · have hkj : ¬ k = j := fun hkj => hp (hkj ▸ hj)
        have hjk : ¬ j = k := fun h => hkj h.symm
        simp [dset, dlookup, hp, hj, hkj, hjk]
      · simp [dset, dlookup, hp, hj, ih]

/-! ## C6: `keep_first` ignores empty and later writes -/

/-- C6: the `keep_first` reducer is a no-op under empty deltas — for
every current value and every empty (falsy) incoming value of the same
kind (each state field holds values of one kind, its annotated type),
the field keeps its current value; and once the current value is
non-empty (truthy), any incoming value is ignored. -/
theorem keep_first_noop :
    (∀ v e : Val, vkind v = vkind e → truthy e = false → keep_first v e = v) ∧
    (∀ v w : Val, truthy v = true → keep_first v w = v) := by
  refine ⟨fun v e hk he => ?_, fun v w hv => by simp [keep_first, hv]⟩
  by_cases hv : truthy v
  · simp [keep_first, hv]
  · have hve : v = e := by
      cases v <;> cases e <;>
        simp_all [truthy, vkind, List.isEmpty_iff]
    simp [keep_first, hv, hve]

theorem keep_first_noop_witness :
    vkind (Val.vs "hello") = vkind (Val.vs "") ∧
      truthy (Val.vs "") = false ∧
      keep_first (Val.vs "hello") (Val.vs "") = Val.vs "hello" ∧
      truthy (Val.vs "hello") = true ∧
      keep_first (Val.vs "hello") (Val.vs "later") = Val.vs "hello" :=
  ⟨rfl, rfl, keep_first_noop.1 _ _ rfl rfl, rfl, keep_first_noop.2 _ _ rfl⟩

/-! ## C7: algebra of the `append` / `sum` / `merge_map` reducers -/

/-- C7 counterexample: the `append` reducer (`operator.add` on lists) is
not commutative — merging the path deltas `["A"]` and `["B"]` in the two
arrival orders yields different values, refuting the claim that all of
`append`/`sum`/`merge_map` are associative *and commutative*. -/
theorem append_reducer_not_commutative :
    listAdd [Val.vs "A"] [Val.vs "B"] ≠ listAdd [Val.vs "B"] [Val.vs "A"] := by
  simp [listAdd]

/-- C7 (amended): the reducers bound to `append` and `merge_map` fields
are associative (`merge_map` extensionally, which is what Python dict
equality observes), and the `sum` reducer at the integer-typed
`tokens_used` field is associative and moreover commutative, so that
field — starting at `0` and merged with the increments `3` and `4` in
either order — yields `7`.  `append` and `merge_map` are order-sensitive
(see the counterexample), and the float-typed `cost` field's sum uses
floating-point addition, which is not exactly associative and is not
covered by this statement. -/
theorem reducers_assoc_sum_comm :
    (∀ a b c : List Val, listAdd (listAdd a b) c = listAdd a (listAdd b c)) ∧
    (∀ a b c : Int, numAdd (numAdd a b) c = numAdd a (numAdd b c)) ∧
    (∀ a b c : Dict, ∀ k : String,
      dlookup (merge_dict (merge_dict a b) c) k =
        dlookup (merge_dict a (merge_dict b c)) k) ∧
    (∀ a b : Int, numAdd a b = numAdd b a) ∧
    numAdd (numAdd 0 3) 4 = 7 ∧ numAdd (numAdd 0 4) 3 = 7 := by
  refine ⟨fun a b c => ?_, fun a b c => Int.add_assoc a b c,
    fun a b c k => ?_, fun a b => Int.add_comm a b, rfl, rfl⟩
  · simp [listAdd]
  · simp only [dlookup_merge_dict]
    cases dlookup a k <;> cases dlookup b k <;> cases dlookup c k <;>
      simp [Option.or]

/-! ## C1: conditional dispatch routing -/

/-- C1 counterexample: with merged intent `"abc"` and targets
`["x", "bc"]`, the compiled routing function returns `"x"` (no target
contains `"abc"`, so it falls back to the first), while the claim's rule
(exact match first, else the first target that is a substring *of the
intent*) selects `"bc"`. -/
theorem routing_function_counterexample :
    routing_function ["x", "bc"] [("intent", Val.vs "abc")] = "x" ∧
      routing_function_spec ["x", "bc"] "abc" = "bc" ∧
      ("x" : String) ≠ "bc" := ⟨rfl, rfl, by simp⟩

theorem find?_split {α : Type} (p : α → Bool) (l : List α) :
    (l.find? p = none ∧ ∀ u ∈ l, p u = false) ∨
    ∃ t pre post, l.find? p = some t ∧ l = pre ++ t :: post ∧ p t = true ∧
      ∀ u ∈ pre, p u = false := by
  induction l with
  | nil => exact .inl ⟨rfl, by simp⟩
  | cons a rest ih =>
    by_cases ha : p a
    · exact .inr ⟨a, [], rest, by simp [List.find?_cons_of_pos _ ha], by simp,
        ha, by simp⟩
    · have ha' : p a = false := by simpa using ha
      rcases ih with ⟨hf, hall⟩ | ⟨t, pre, post, hf, hl, hpt, hpre⟩
      · refine .inl ⟨by simp [List.find?_cons_of_neg _ ha, hf], ?_⟩
        intro u hu
        rcases List.mem_cons.mp hu with h | h
        · exact h ▸ ha'
        · exact hall u h
      · refine .inr ⟨t, a :: pre, post,
          by simp [List.find?_cons_of_neg _ ha, hf], by simp [hl], hpt, ?_⟩
        intro u hu
        rcases List.mem_cons.mp hu with h | h
        · exact h ▸ ha'
        · exact hpre u h

/-- C1 (amended): from a node with a non-empty target list, the compiled
routing function scans the targets in listed order and selects the first
target whose id case-insensitively equals the merged state's intent or
case-insensitively contains the intent as a substring; when no target
matches it falls back to the first listed target.  In particular, when
the intent equals `routeB` among targets `[routeA, routeB]`, dispatch
selects `routeB`. -/
theorem routing_function_amended :
    (∀ (to_nodes : List String) (st : Dict), to_nodes ≠ [] →
      (∃ pre t post, to_nodes = pre ++ t :: post ∧
          routeMatch (asStr (dget st "intent" (.vs ""))) t = true ∧
          (∀ u ∈ pre,
            routeMatch (asStr (dget st "intent" (.vs ""))) u = false) ∧
          routing_function to_nodes st = t) ∨
      ((∀ u ∈ to_nodes,
          routeMatch (asStr (dget st "intent" (.vs ""))) u = false) ∧
        routing_function to_nodes st = to_nodes.headD ENDtok)) ∧
    routing_function ["routeA", "routeB"] [("intent", Val.vs "routeB")] =
      "routeB" := by
  refine ⟨fun to_nodes st hne => ?_, rfl⟩
  rcases find?_split
      (fun target => routeMatch (asStr (dget st "intent" (.vs ""))) target)
      to_nodes with ⟨hf, hall⟩ | ⟨t, pre, post, hf, hl, hpt, hpre⟩
  · refine .inr ⟨hall, ?_⟩
    dsimp only [routing_function]
    rw [hf]
    cases to_nodes with
    | nil => exact absurd rfl hne
    | cons a rest => rfl
  · refine .inl ⟨pre, t, post, hl, hpt, hpre, ?_⟩
    dsimp only [routing_function]
    rw [hf]

theorem routing_function_amended_witness :
    (∃ pre t post, (["routeA", "routeB"] : List String) = pre ++ t :: post ∧
        routeMatch
          (asStr (dget [("intent", Val.vs "routeB")] "intent" (.vs ""))) t =
          true ∧
        (∀ u ∈ pre,
          routeMatch
            (asStr (dget [("intent", Val.vs "routeB")] "intent" (.vs ""))) u =
            false) ∧
        routing_function ["routeA", "routeB"] [("intent", Val.vs "routeB")] =
          t) ∨
    ((∀ u ∈ (["routeA", "routeB"] : List String),
        routeMatch
          (asStr (dget [("intent", Val.vs "routeB")] "intent" (.vs ""))) u =
          false) ∧
      routing_function ["routeA", "routeB"] [("intent", Val.vs "routeB")] =
        (["routeA", "routeB"] : List String).headD ENDtok) :=
  routing_function_amended.1 ["routeA", "routeB"]
    [("intent", Val.vs "routeB")] (by simp)

/-! ## C5 and C9: edge wiring in the compiler -/

theorem edgeWires_def (tys : List (String × String)) (e : EdgeM) :
    edgeWires tys e =
      if dget tys e.from_node "" = "router" ∧ 1 < e.to_nodes.length then
        [Wire.cond e.from_node e.to_nodes]
      else if e.condition.isSome then [Wire.cond e.from_node e.to_nodes]
      else
        e.to_nodes.map fun t =>
          if strLower t = "end" ∨ t = "__end__" then
            Wire.simple e.from_node ENDtok
          else Wire.simple e.from_node t := rfl

theorem mem_wiresOfEdges_src (tys : List (String × String))
    (es : List EdgeM) (w : Wire) (hw : w ∈ wiresOfEdges tys es) :
    ∃ e ∈ es, w.src = e.from_node := by
  induction es with
  | nil => simp [wiresOfEdges] at hw
  | cons e rest ih =>
    rcases List.mem_append.mp hw with h | h
    · refine ⟨e, List.mem_cons_self _ _, ?_⟩
      rw [edgeWires_def] at h
      by_cases h1 : dget tys e.from_node "" = "router" ∧ 1 < e.to_nodes.length
      · rw [if_pos h1] at h
        simp at h
        simp [h, Wire.src]
      · rw [if_neg h1] at h
        by_cases h2 : e.condition.isSome
        · rw [if_pos h2] at h
          simp at h
          simp [h, Wire.src]
        · rw [if_neg h2] at h
          rcases List.mem_map.mp h with ⟨t, _, ht⟩
          subst ht
          by_cases hc : strLower t = "end" ∨ t = "__end__" <;>
            simp [hc, Wire.src]
    · obtain ⟨e', he', hs⟩ := ih h
      exact ⟨e', List.mem_cons_of_mem _ he', hs⟩

theorem mem_deadEndWires_src (edges : List EdgeM) (ns : List NodeM)
    (w : Wire) (hw : w ∈ deadEndWires edges ns) :
    ∃ m ∈ ns, w = Wire.simple m.id ENDtok := by
  induction ns with
  | nil => simp [deadEndWires] at hw
  | cons m rest ih =>
    rcases List.mem_append.mp hw with h | h
    · refine ⟨m, List.mem_cons_self _ _, ?_⟩
      split at h
      · simp at h
      · split at h
        · exact List.mem_singleton.mp h
        · simp at h
    · obtain ⟨m', hm', hs⟩ := ih h
      exact ⟨m', List.mem_cons_of_mem _ hm', hs⟩

theorem filter_deadEndWires (edges : List EdgeM) (ns : List NodeM)
    (n : NodeM) (hn : n ∈ ns) (hnd : (ns.map NodeM.id).Nodup)
    (hno : ∀ e ∈ edges, e.from_node ≠ n.id) :
    (deadEndWires edges ns).filter (fun w => w.src == n.id) =
      if n.type = .aggregator then [Wire.simple n.id ENDtok] else [] := by
  induction ns with
  | nil => exact absurd hn (List.not_mem_nil n)
  | cons m rest ih =>
    have hnd' : (rest.map NodeM.id).Nodup := (List.nodup_cons.mp hnd).2
    have hmid : m.id ∉ rest.map NodeM.id := (List.nodup_cons.mp hnd).1
    rw [show deadEndWires edges (m :: rest) =
        ((if edges.any (fun e => e.from_node == m.id) then []
          else if m.type = .aggregator then [Wire.simple m.id ENDtok]
          else []) ++ deadEndWires edges rest) from rfl,
      List.filter_append]
    rcases List.mem_cons.mp hn with rfl | hnrest
    · have hany : edges.any (fun e => e.from_node == n.id) = false := by
        rw [List.any_eq_false]
        intro e he
        simpa using hno e he
      have hrest :
          (deadEndWires edges rest).filter (fun w => w.src == n.id) = [] := by
        rw [List.filter_eq_nil_iff]
        intro w hw
        obtain ⟨m', hm', rfl⟩ := mem_deadEndWires_src edges rest w hw
        have : m'.id ≠ n.id := by
          intro hEq
          exact hmid (hEq ▸ List.mem_map_of_mem NodeM.id hm')
        simpa [Wire.src] using this
      rw [hany, hrest]
      by_cases ht : n.type = .aggregator <;> simp [ht, Wire.src]
    · have hmn : m.id ≠ n.id := by
        intro hEq
        exact hmid (hEq ▸ List.mem_map_of_mem NodeM.id hnrest)
      have hhead :
          ((if edges.any (fun e => e.from_node == m.id) then []
            else if m.type = .aggregator then [Wire.simple m.id ENDtok]
            else []) : List Wire).filter (fun w => w.src == n.id) = [] := by
        split
        · rfl
        · split
          · simp [Wire.src, hmn]
          · rfl
      rw [hhead, ih hnrest hnd']
      simp

/-- C5: in the compiled dispatch entries, a node that is the source of no
edge contributes no outgoing entry at all — unless its type is
`aggregator`, in which case it is auto-wired to the terminal marker
(node ids assumed pairwise distinct, as the data model requires). -/
theorem dead_end_auto_wiring (nodes : List NodeM) (edges : List EdgeM)
    (n : NodeM) (hn : n ∈ nodes) (hnd : (nodes.map NodeM.id).Nodup)
    (hno : ∀ e ∈ edges, e.from_node ≠ n.id) :
    (add_edges edges nodes).filter (fun w => w.src == n.id) =
      if n.type = .aggregator then [Wire.simple n.id ENDtok] else [] := by
  unfold add_edges
  rw [List.filter_append]
  have h1 : (wiresOfEdges (nodeTypes nodes) edges).filter
      (fun w => w.src == n.id) = [] := by
    rw [List.filter_eq_nil_iff]
    intro w hw
    obtain ⟨e, he, hs⟩ := mem_wiresOfEdges_src _ _ w hw
    simpa [hs] using hno e he
  rw [h1, filter_deadEndWires edges nodes n hn hnd hno]
  simp

theorem dead_end_auto_wiring_witness :
    (add_edges []
        [⟨"in", NType.input, []⟩, ⟨"agg", NType.aggregator, []⟩]).filter
        (fun w => w.src == (⟨"agg", NType.aggregator, []⟩ : NodeM).id) =
      if (⟨"agg", NType.aggregator, []⟩ : NodeM).type = .aggregator then
        [Wire.simple (⟨"agg", NType.aggregator, []⟩ : NodeM).id ENDtok]
      else [] :=
  dead_end_auto_wiring [⟨"in", NType.input, []⟩, ⟨"agg", NType.aggregator, []⟩]
    [] ⟨"agg", NType.aggregator, []⟩ (by simp) (by simp) (by simp)

theorem wires_simple_end (tys : List (String × String)) (es : List EdgeM)
    (s u : String) (h : Wire.simple s u ∈ wiresOfEdges tys es)
    (hlu : strLower u = "end") : u = ENDtok := by
  induction es with
  | nil => simp [wiresOfEdges] at h
  | cons e rest ih =>
    rcases List.mem_append.mp h with h2 | h2
    · rw [edgeWires_def] at h2
      by_cases h3 : dget tys e.from_node "" = "router" ∧ 1 < e.to_nodes.length
      · rw [if_pos h3] at h2
        simp at h2
      · rw [if_neg h3] at h2
        by_cases h4 : e.condition.isSome
        · rw [if_pos h4] at h2
          simp at h2
        · rw [if_neg h4] at h2
          rcases List.mem_map.mp h2 with ⟨t, _, ht⟩
          by_cases hc : strLower t = "end" ∨ t = "__end__"
          · rw [if_pos hc] at ht
            exact ((Wire.simple.injEq _ _ _ _).mp ht).2.symm
          · rw [if_neg hc] at ht
            have htu : t = u := ((Wire.simple.injEq _ _ _ _).mp ht).2
            subst htu
            exact absurd (Or.inl hlu) hc
    · exact ih h2

/-- C9: a non-conditional edge target spelled `end` (case-insensitive) or
`__end__` is wired to the terminal marker, every other target to the node
of that id; and no compiled simple entry ever points at a node whose name
lower-cases to `end` other than the marker itself. -/
theorem simple_edge_end_wiring :
    (∀ (edges : List EdgeM) (nodes : List NodeM) (e : EdgeM) (t : String),
      e ∈ edges →
      ¬(dget (nodeTypes nodes) e.from_node "" = "router" ∧
          1 < e.to_nodes.length) →
      e.condition = none → t ∈ e.to_nodes →
      Wire.simple e.from_node
          (if strLower t = "end" ∨ t = "__end__" then ENDtok else t) ∈
        add_edges edges nodes) ∧
    (∀ (edges : List EdgeM) (nodes : List NodeM) (w : Wire),
      w ∈ add_edges edges nodes → ∀ s u, w = .simple s u →
      strLower u = "end" → u = ENDtok) := by
  constructor
  · intro edges nodes e t he hnr hnc ht
    refine List.mem_append_left _ ?_
    induction edges with
    | nil => simp at he
    | cons e2 rest ih =>
      rcases List.mem_cons.mp he with rfl | he2
      · refine List.mem_append_left _ ?_
        rw [edgeWires_def, if_neg hnr, if_neg (by simp [hnc])]
        have harg :
            (fun t =>
              if strLower t = "end" ∨ t = "__end__" then
                Wire.simple e.from_node ENDtok
              else Wire.simple e.from_node t) t =
              Wire.simple e.from_node
                (if strLower t = "end" ∨ t = "__end__" then ENDtok else t) := by
          by_cases hc : strLower t = "end" ∨ t = "__end__" <;> simp [hc]
        rw [← harg]
        exact List.mem_map_of_mem _ ht
      · exact List.mem_append_right _ (ih he2)
  · intro edges nodes w hw s u hwu hlu
    subst hwu
    rcases List.mem_append.mp hw with h | h
    · exact wires_simple_end _ _ s u h hlu
    · obtain ⟨m, _, hs⟩ := mem_deadEndWires_src _ _ _ h
      exact ((Wire.simple.injEq _ _ _ _).mp hs).2

theorem simple_edge_end_wiring_witness :
    Wire.simple "a"
        (if strLower "End" = "end" ∨ "End" = "__end__" then ENDtok
         else "End") ∈
      add_edges [⟨"a", ["End"], none⟩] [⟨"a", NType.input, []⟩] :=
  simple_edge_end_wiring.1 [⟨"a", ["End"], none⟩] [⟨"a", NType.input, []⟩]
    ⟨"a", ["End"], none⟩ "End" (by simp) (by decide) rfl (by simp)

/-! ## C2: the partial state attached on workflow failure -/

/-- C2: on the specification's failure scenario
(`start → router → routeA`, `routeA` raising), the engine stops with the
accumulated state of the last successful merge, whose `execution_path` is
`[start, router]` — but the `WorkflowExecutionError` raised by
`run_workflow` carries as `partial_state` the *prepared initial* state,
whose `execution_path` is `[]`: the accumulated state is not what gets
attached. -/
theorem run_workflow_partial_state_is_initial :
    (match runEngine 25 routeAFailGraph routeAFailGraph.entry
        (prepare_initial_state []) with
     | .error pe =>
        pe.1 = "step failed: routeA" ∧
          dget pe.2 "execution_path" .vnone = .vl [.vs "start", .vs "router"]
     | .ok _ => False) ∧
    (match run_workflow routeAFailGraph [] none with
     | .error err =>
        dget err.partial_state "execution_path" .vnone = .vl [] ∧
          err.message = "Workflow execution failed: step failed: routeA"
     | .ok _ => False) := by
  exact ⟨⟨rfl, rfl⟩, ⟨rfl, rfl⟩⟩

/-! ## C8: `merge_state` routes custom keys to `outputs` and frames the
rest -/

theorem merge_state_fold_split (updates : List (String × Val))
    (s o : Dict) :
    updates.foldl
        (fun (p : Dict × Dict) kv =>
          if kv.1 ∈ declaredKeys then (dset p.1 kv.1 kv.2, p.2)
          else (p.1, dset p.2 kv.1 kv.2))
        (s, o) =
      (updates.foldl
        (fun st kv =>
          if kv.1 ∈ declaredKeys then dset st kv.1 kv.2 else st) s,
       updates.foldl
        (fun ot kv =>
          if kv.1 ∈ declaredKeys then ot else dset ot kv.1 kv.2) o) := by
  induction updates generalizing s o with
  | nil => rfl
  | cons kv rest ih =>
    by_cases h : kv.1 ∈ declaredKeys <;> simp [h, ih]

theorem lookup_foldl_declared_frame (updates : List (String × Val))
    (s : Dict) (k : String) (h : ∀ v, (k, v) ∉ updates) :
    dlookup
        (updates.foldl
          (fun st kv =>
            if kv.1 ∈ declaredKeys then dset st kv.1 kv.2 else st) s) k =
      dlookup s k := by
  induction updates generalizing s with
  | nil => rfl
  | cons kv rest ih =>
    have hk : kv.1 ≠ k := by
      intro hEq
      exact h kv.2 (by simp [← hEq])
    have h' : ∀ v, (k, v) ∉ rest := fun v hv =>
      h v (List.mem_cons_of_mem _ hv)
    by_cases hd : kv.1 ∈ declaredKeys
    · simp only [List.foldl_cons, if_pos hd]
      rw [ih _ h', dlookup_dset _ _ _ _]
      simp [hk]
    · simp only [List.foldl_cons, if_neg hd]
      exact ih _ h'

theorem lookup_foldl_outputs_frame (updates : List (String × Val))
    (o : Dict) (k : String) (h : ∀ v, (k, v) ∉ updates) :
    dlookup
        (updates.foldl
          (fun ot kv =>
            if kv.1 ∈ declaredKeys then ot else dset ot kv.1 kv.2) o) k =
      dlookup o k := by
  induction updates generalizing o with
  | nil => rfl
  | cons kv rest ih =>
    have hk : kv.1 ≠ k := by
      intro hEq
      exact h kv.2 (by simp [← hEq])
    have h' : ∀ v, (k, v) ∉ rest := fun v hv =>
      h v (List.mem_cons_of_mem _ hv)
    by_cases hd : kv.1 ∈ declaredKeys
    · simp only [List.foldl_cons, if_pos hd]
      exact ih _ h'
    · simp only [List.foldl_cons, if_neg hd]
      rw [ih _ h', dlookup_dset _ _ _ _]
      simp [hk]

theorem lookup_foldl_outputs_set (updates : List (String × Val))
    (o : Dict) (k : String) (v : Val) (hmem : (k, v) ∈ updates)
    (hk : k ∉ declaredKeys) (hnd : (updates.map Prod.fst).Nodup) :
    dlookup
        (updates.foldl
          (fun ot kv =>
            if kv.1 ∈ declaredKeys then ot else dset ot kv.1 kv.2) o) k =
      some v := by
  induction updates generalizing o with
  | nil => simp at hmem
  | cons kv rest ih =>
    have hnd' : (rest.map Prod.fst).Nodup := (List.nodup_cons.mp hnd).2
    have hhead : kv.1 ∉ rest.map Prod.fst := (List.nodup_cons.mp hnd).1
    rcases List.mem_cons.mp hmem with rfl | hrest
    · have hnone : ∀ w, (k, w) ∉ rest := by
        intro w hw
        exact hhead (List.mem_map.mpr ⟨(k, w), hw, rfl⟩)
      simp only [List.foldl_cons, if_neg hk]
      rw [lookup_foldl_outputs_frame rest _ k hnone, dlookup_dset _ _ _ _]
      simp
    · have hne : kv.1 ≠ k := by
        intro hEq
        exact hhead (hEq ▸ List.mem_map.mpr ⟨(k, v), hrest, rfl⟩)
      by_cases hd : kv.1 ∈ declaredKeys
      · simp only [List.foldl_cons, if_pos hd]
        exact ih _ hrest hnd'
      · simp only [List.foldl_cons, if_neg hd]
        exact ih _ hrest hnd'

theorem outputsOf_dset_outputs (st : Dict) (d : Dict) :
    outputsOf (dset st "outputs" (.vd d)) = d := by
  unfold outputsOf dget
  rw [dlookup_dset _ _ _ _]
  simp

/-- C8: `merge_state` stores every update key that is not a declared
`GraphState` field into the `outputs` dict of the result, bound to the
given value, and every declared field other than `outputs` and the
explicitly updated declared keys reads back unchanged from the result.
The base state itself is untouched (the embedding is pure, mirroring the
`dict(...)` copies the source takes before writing). -/
theorem merge_state_outputs_and_frame (base : Dict)
    (updates : List (String × Val)) (hnd : (updates.map Prod.fst).Nodup) :
    (∀ k v, (k, v) ∈ updates → k ∉ declaredKeys →
      dlookup (outputsOf (merge_state base updates)) k = some v) ∧
    (∀ k, k ∈ declaredKeys → k ≠ "outputs" → (∀ v, (k, v) ∉ updates) →
      dlookup (merge_state base updates) k = dlookup base k) := by
  have hms : merge_state base updates =
      dset (updates.foldl
          (fun st kv =>
            if kv.1 ∈ declaredKeys then dset st kv.1 kv.2 else st) base)
        "outputs"
        (.vd (updates.foldl
          (fun ot kv =>
            if kv.1 ∈ declaredKeys then ot else dset ot kv.1 kv.2)
          (outputsOf base))) := by
    simp only [merge_state, outputsOf]
    rw [merge_state_fold_split]
  constructor
  · intro k v hmem hk
    rw [hms, outputsOf_dset_outputs]
    exact lookup_foldl_outputs_set updates _ k v hmem hk hnd
  · intro k hdk hko hnup
    rw [hms, dlookup_dset _ _ _ _]
    rw [if_neg (fun h => hko h.symm)]
    exact lookup_foldl_declared_frame updates base k hnup

theorem merge_state_outputs_and_frame_witness :
    dlookup
        (outputsOf (merge_state (create_initial_state (.vs "hi") [])
          [("summary", .vs "S"), ("intent", .vs "greet")])) "summary" =
      some (.vs "S") ∧
    dlookup
        (merge_state (create_initial_state (.vs "hi") [])
          [("summary", .vs "S"), ("intent", .vs "greet")]) "user_input" =
      dlookup (create_initial_state (.vs "hi") []) "user_input" :=
  ⟨(merge_state_outputs_and_frame (create_initial_state (.vs "hi") [])
      [("summary", .vs "S"), ("intent", .vs "greet")] (by simp)).1
     "summary" (.vs "S") (by simp) (by simp [declaredKeys]),
   (merge_state_outputs_and_frame (create_initial_state (.vs "hi") [])
      [("summary", .vs "S"), ("intent", .vs "greet")] (by simp)).2
     "user_input" (by simp [declaredKeys]) (by simp) (by simp)⟩

/-! ## Validator: issue inventories per check -/

theorem mem_dupErrs {mk : String → VErr} :
    ∀ {ids seen : List String} {e : VErr},
      e ∈ dupErrs mk ids seen → ∃ i, e = mk i := by
  intro ids
  induction ids with
  | nil => intro seen e he; simp [dupErrs] at he
  | cons i rest ih =>
    intro seen e he
    rcases List.mem_append.mp he with h | h
    · refine ⟨i, ?_⟩
      split at h
      · exact List.mem_singleton.mp h
      · simp at h
    · exact ih h

theorem mem_startErrs_type {spec : WSpec} {ids : List String} {e : VErr}
    (he : e ∈ validate_start_node spec ids) :
    e.type = "start_node_missing" ∨ e.type = "start_node_invalid" := by
  unfold validate_start_node at he
  split at he
  · exact .inl ((List.mem_singleton.mp he) ▸ rfl)
  · split at he
    · simp at he
    · exact .inr ((List.mem_singleton.mp he) ▸ rfl)

theorem mem_edgeErrs_type {ids : List String} :
    ∀ {i : Nat} {es : List EdgeM} {e : VErr}, e ∈ edgeErrs ids i es →
      e.type = "edge_source_invalid" ∨ e.type = "edge_target_invalid" := by
  intro i es
  induction es generalizing i with
  | nil => intro e he; simp [edgeErrs] at he
  | cons ed rest ih =>
    intro e he
    rcases List.mem_append.mp he with h | h
    · rcases List.mem_append.mp h with h2 | h2
      · split at h2
        · simp at h2
        · exact .inl ((List.mem_singleton.mp h2) ▸ rfl)
      · rcases List.mem_filterMap.mp h2 with ⟨t, _, ht⟩
        split at ht
        · simp at ht
        · exact .inr ((Option.some.injEq _ _ ▸ ht) ▸ rfl)
    · exact ih h

theorem mem_queueErrs_type {ids : List String} :
    ∀ {i : Nat} {qs : List QueueM} {e : VErr}, e ∈ queueErrs ids i qs →
      e.type = "queue_source_invalid" ∨ e.type = "queue_target_invalid" := by
  intro i qs
  induction qs generalizing i with
  | nil => intro e he; simp [queueErrs] at he
  | cons qu rest ih =>
    intro e he
    rcases List.mem_append.mp he with h | h
    · rcases List.mem_append.mp h with h2 | h2
      · split at h2
        · simp at h2
        · exact .inl ((List.mem_singleton.mp h2) ▸ rfl)
      · split at h2
        · simp at h2
        · exact .inr ((List.mem_singleton.mp h2) ▸ rfl)
    · exact ih h

theorem mem_srcRefErrs_type {msg : String} {n : NodeM}
    {sids : List String} {e : VErr} (he : e ∈ srcRefErrs msg n sids) :
    e.type = "source_missing" := by
  simp only [srcRefErrs] at he
  split at he
  · exact (List.mem_singleton.mp he) ▸ rfl
  · simp at he

theorem mem_nodeCfgErrs_type {sids : List String} {n : NodeM} {e : VErr}
    (he : e ∈ nodeCfgErrs sids n) :
    e.type = "source_missing" ∨ e.type = "metadata_missing" := by
  obtain ⟨nid, nty, nmeta⟩ := n
  cases nty <;> simp only [nodeCfgErrs] at he
  case mk.input => simp at he
  case mk.aggregator => simp at he
  case mk.router =>
    split at he
    · exact .inr ((List.mem_singleton.mp he) ▸ rfl)
    · simp at he
  case mk.llm =>
    rcases List.mem_append.mp he with h | h
    · exact .inl (mem_srcRefErrs_type h)
    · split at h
      · exact .inr ((List.mem_singleton.mp h) ▸ rfl)
      · simp at h
  case mk.image => exact .inl (mem_srcRefErrs_type he)
  case mk.db =>
    rcases List.mem_append.mp he with h | h
    · exact .inl (mem_srcRefErrs_type h)
    · split at h
      · exact .inr ((List.mem_singleton.mp h) ▸ rfl)
      · simp at h

theorem mem_nodesErrs_type {sids : List String} :
    ∀ {ns : List NodeM} {e : VErr}, e ∈ nodesErrs sids ns →
      e.type = "source_missing" ∨ e.type = "metadata_missing" := by
  intro ns
  induction ns with
  | nil => intro e he; simp [nodesErrs] at he
  | cons n rest ih =>
    intro e he
    rcases List.mem_append.mp he with h | h
    · exact mem_nodeCfgErrs_type h
    · exact ih h

theorem mem_sourceCfgErrs_type {s : SourceM} {e : VErr}
    (he : e ∈ sourceCfgErrs s) : e.type = "metadata_missing" := by
  obtain ⟨sid, skind, scfg⟩ := s
  cases skind <;> simp only [sourceCfgErrs] at he
  case mk.image => simp at he
  case mk.api => simp at he
  case mk.llm =>
    split at he
    · exact (List.mem_singleton.mp he) ▸ rfl
    · simp at he
  case mk.db =>
    split at he
    · exact (List.mem_singleton.mp he) ▸ rfl
    · simp at he

theorem mem_sourcesErrs_type :
    ∀ {ss : List SourceM} {e : VErr}, e ∈ sourcesErrs ss →
      e.type = "metadata_missing" := by
  intro ss
  induction ss with
  | nil => intro e he; simp [sourcesErrs] at he
  | cons s rest ih =>
    intro e he
    rcases List.mem_append.mp he with h | h
    · exact mem_sourceCfgErrs_type h
    · exact ih h

theorem mem_orphanErrs_type {spec : WSpec} {ids : List String} {e : VErr}
    (he : e ∈ orphanErrs spec ids) : e.type = "orphaned_node" := by
  unfold orphanErrs at he
  rcases List.mem_filterMap.mp he with ⟨nid, _, hn⟩
  split at hn
  · simp at hn
  · exact (Option.some.injEq _ _ ▸ hn) ▸ rfl

/-! ## Validator: each check is empty under its precondition -/

theorem dupErrs_eq_nil (mk : String → VErr) :
    ∀ (ids seen : List String), ids.Nodup → (∀ i ∈ ids, i ∉ seen) →
      dupErrs mk ids seen = [] := by
  intro ids
  induction ids with
  | nil => intro seen _ _; rfl
  | cons i rest ih =>
    intro seen hnd hdis
    have hi : i ∉ seen := hdis i (List.mem_cons_self _ _)
    have hrest : ∀ j ∈ rest, j ∉ i :: seen := by
      intro j hj hmem
      rcases List.mem_cons.mp hmem with rfl | hmem'
      · exact (List.nodup_cons.mp hnd).1 hj
      · exact hdis j (List.mem_cons_of_mem _ hj) hmem'
    simp only [dupErrs, if_neg hi, List.nil_append]
    exact ih (i :: seen) (List.nodup_cons.mp hnd).2 hrest

theorem startErrs_eq_nil {spec : WSpec} {ids : List String}
    (h1 : spec.start_node ≠ "") (h2 : spec.start_node ∈ ids) :
    validate_start_node spec ids = [] := by
  unfold validate_start_node
  rw [if_neg h1, if_pos h2]

theorem edgeErrs_eq_nil {ids : List String} {es : List EdgeM}
    (h : ∀ e ∈ es, e.from_node ∈ ids ∧ ∀ t ∈ e.to_nodes, t ∈ ids) :
    ∀ i, edgeErrs ids i es = [] := by
  induction es with
  | nil => intro i; rfl
  | cons e rest ih =>
    intro i
    obtain ⟨hf, ht⟩ := h e (List.mem_cons_self _ _)
    have hrest : ∀ e ∈ rest, e.from_node ∈ ids ∧ ∀ t ∈ e.to_nodes, t ∈ ids :=
      fun e he => h e (List.mem_cons_of_mem _ he)
    simp only [edgeErrs, if_pos hf, List.nil_append]
    rw [List.filterMap_eq_nil_iff.mpr (fun t htm => by
        simp [ht t htm]), List.nil_append]
    exact ih hrest (i + 1)

theorem queueErrs_eq_nil {ids : List String} {qs : List QueueM}
    (h : ∀ qu ∈ qs, qu.from_node ∈ ids ∧ qu.to_node ∈ ids) :
    ∀ i, queueErrs ids i qs = [] := by
  induction qs with
  | nil => intro i; rfl
  | cons qu rest ih =>
    intro i
    obtain ⟨hf, ht⟩ := h qu (List.mem_cons_self _ _)
    have hrest : ∀ x ∈ rest, x.from_node ∈ ids ∧ x.to_node ∈ ids :=
      fun x hx => h x (List.mem_cons_of_mem _ hx)
    simp only [queueErrs, if_pos hf, if_pos ht, List.nil_append]
    exact ih hrest (i + 1)

theorem srcRefErrs_eq_nil {msg : String} {n : NodeM} {sids : List String}
    (h : (!truthy (dget n.metadata "source_id" .vnone) ||
        memStr (dget n.metadata "source_id" .vnone) sids) = true) :
    srcRefErrs msg n sids = [] := by
  have hc : (truthy (dget n.metadata "source_id" .vnone) &&
      !memStr (dget n.metadata "source_id" .vnone) sids) = false := by
    rcases Bool.or_eq_true _ _ |>.mp h with h' | h'
    · have hf : truthy (dget n.metadata "source_id" .vnone) = false := by
        simpa using h'
      simp [hf]
    · simp [h']
  simp [srcRefErrs, hc]

theorem nodeCfgErrs_eq_nil {sids : List String} {n : NodeM}
    (h : nodeCfgOk sids n = true) : nodeCfgErrs sids n = [] := by
  obtain ⟨nid, nty, nmeta⟩ := n
  cases nty <;> simp only [nodeCfgOk] at h <;> simp only [nodeCfgErrs]
  case mk.router =>
    rw [if_neg]
    simp only [Bool.or_eq_true] at h
    rcases h with h | h <;> simp [h]
  case llm =>
    obtain ⟨h1, h2⟩ := Bool.and_eq_true _ _ |>.mp h
    rw [srcRefErrs_eq_nil h1, List.nil_append, if_neg]
    simp only [Bool.or_eq_true] at h2
    rcases h2 with h2 | h2 <;> simp [h2]
  case mk.image => exact srcRefErrs_eq_nil h
  case mk.db =>
    obtain ⟨h1, h2⟩ := Bool.and_eq_true _ _ |>.mp h
    rw [srcRefErrs_eq_nil h1, List.nil_append, if_neg]
    simp [h2]

theorem nodesErrs_eq_nil {sids : List String} {ns : List NodeM}
    (h : ∀ n ∈ ns, nodeCfgOk sids n = true) : nodesErrs sids ns = [] := by
  induction ns with
  | nil => rfl
  | cons n rest ih =>
    simp only [nodesErrs]
    rw [nodeCfgErrs_eq_nil (h n (List.mem_cons_self _ _)), List.nil_append]
    exact ih (fun n hn => h n (List.mem_cons_of_mem _ hn))

theorem sourceCfgErrs_eq_nil {s : SourceM} (h : sourceCfgOk s = true) :
    sourceCfgErrs s = [] := by
  obtain ⟨sid, skind, scfg⟩ := s
  cases skind <;> simp only [sourceCfgOk] at h <;> simp only [sourceCfgErrs]
  case mk.llm =>
    rw [if_neg]
    simp only [Bool.or_eq_true] at h
    rcases h with h | h <;> simp [h]
  case mk.db =>
    rw [if_neg]
    simp only [Bool.or_eq_true] at h
    rcases h with h | h <;> simp [h]

theorem sourcesErrs_eq_nil {ss : List SourceM}
    (h : ∀ s ∈ ss, sourceCfgOk s = true) : sourcesErrs ss = [] := by
  induction ss with
  | nil => rfl
  | cons s rest ih =>
    simp only [sourcesErrs]
    rw [sourceCfgErrs_eq_nil (h s (List.mem_cons_self _ _)), List.nil_append]
    exact ih (fun s hs => h s (List.mem_cons_of_mem _ hs))

theorem mem_edges_foldr_targets {es : List EdgeM} {e : EdgeM} {t : String}
    (he : e ∈ es) (ht : t ∈ e.to_nodes) :
    t ∈ es.foldr (fun e acc => e.to_nodes ++ acc) [] := by
  induction es with
  | nil => simp at he
  | cons e2 rest ih =>
    rcases List.mem_cons.mp he with rfl | h
    · exact List.mem_append_left _ ht
    · exact List.mem_append_right _ (ih h)

theorem orphanErrs_eq_nil {spec : WSpec}
    (h : ∀ n ∈ spec.nodes, n.id = spec.start_node ∨
      (∃ e ∈ spec.edges, n.id ∈ e.to_nodes) ∨
      (∃ qu ∈ spec.queues, n.id = qu.to_node)) :
    orphanErrs spec (spec.nodes.map NodeM.id) = [] := by
  unfold orphanErrs
  rw [List.filterMap_eq_nil_iff]
  intro nid hnid
  have hmem : nid ∈ spec.nodes.map NodeM.id := List.mem_dedup.mp hnid
  obtain ⟨n, hn, rfl⟩ := List.mem_map.mp hmem
  have hin : n.id ∈
      spec.edges.foldr (fun e acc => e.to_nodes ++ acc) [] ++
        spec.queues.map (·.to_node) ++ [spec.start_node] := by
    rcases h n hn with hs | ⟨e, he, ht⟩ | ⟨qu, hq, hqt⟩
    · exact List.mem_append_right _ (by simp [hs])
    · exact List.mem_append_left _
        (List.mem_append_left _ (mem_edges_foldr_targets he ht))
    · exact List.mem_append_left _
        (List.mem_append_right _ (List.mem_map.mpr ⟨qu, hq, hqt.symm⟩))
  simp only [if_pos hin]

/-! ## C4: one duplicate issue per duplicate occurrence -/

theorem strAppend_right_inj {pre a b : String} (h : pre ++ a = pre ++ b) :
    a = b := by
  have hd := congrArg String.data h
  simp only [String.data_append] at hd
  exact String.ext (List.append_cancel_left hd)

theorem q_inj {i x : String} (h : q i = q x) : i = x := by
  have hd := congrArg String.data h
  simp only [q, String.data_append] at hd
  exact String.ext
    (List.append_cancel_left (List.append_cancel_right hd))

theorem countP_dupErrs (mk : String → VErr) (p : VErr → Bool) (x : String)
    (hmk : ∀ i, p (mk i) = (i == x)) :
    ∀ (ids seen : List String),
      (dupErrs mk ids seen).countP p =
        if x ∈ seen then ids.count x else ids.count x - 1 := by
  intro ids
  induction ids with
  | nil =>
    intro seen
    by_cases h : x ∈ seen <;> simp [dupErrs, h]
  | cons i rest ih =>
    intro seen
    rw [show dupErrs mk (i :: rest) seen =
        (if i ∈ seen then [mk i] else []) ++ dupErrs mk rest (i :: seen)
        from rfl,
      List.countP_append, ih (i :: seen)]
    by_cases hix : i = x
    · subst hix
      by_cases his : i ∈ seen
      · simp [his, hmk, List.count_cons]
        omega
      · simp [his, hmk, List.count_cons]
    · have hxi : ¬ x = i := fun h => hix h.symm
      by_cases his : i ∈ seen <;> by_cases hxs : x ∈ seen
      · simp [his, hxs, hmk, hix, hxi, List.count_cons, List.mem_cons]
      · simp [his, hxs, hmk, hix, hxi, List.count_cons, List.mem_cons]
      · simp [his, hxs, hmk, hix, hxi, List.count_cons, List.mem_cons]
      · simp [his, hxs, hmk, hix, hxi, List.count_cons, List.mem_cons]

/-- The only checks of `validate_workflow` that can produce an issue whose
type satisfies `p` (a predicate accepting a single duplicate type `t`)
are the duplicate scans. -/
theorem countP_validate_restrict (spec : WSpec) (p : VErr → Bool)
    (t : String) (hp : ∀ e, p e = true → e.type = t)
    (ht : t ≠ "start_node_missing" ∧ t ≠ "start_node_invalid" ∧
      t ≠ "edge_source_invalid" ∧ t ≠ "edge_target_invalid" ∧
      t ≠ "queue_source_invalid" ∧ t ≠ "queue_target_invalid" ∧
      t ≠ "source_missing" ∧ t ≠ "metadata_missing" ∧
      t ≠ "orphaned_node") :
    (validate_workflow spec).countP p =
      (validate_no_duplicates spec).countP p := by
  have hz : ∀ l : List VErr,
      (∀ e ∈ l, e.type ≠ t) → l.countP p = 0 := by
    intro l h
    rw [List.countP_eq_zero]
    intro e he hpe
    exact h e he (hp e hpe)
  obtain ⟨h1, h2, h3, h4, h5, h6, h7, h8, h9⟩ := ht
  have z2 : (validate_start_node spec (spec.nodes.map (·.id))).countP p = 0 :=
    hz _ (fun e he => by
      rcases mem_startErrs_type he with h | h <;> rw [h] <;> intro hEq
      · exact h1 hEq.symm
      · exact h2 hEq.symm)
  have z3 : (edgeErrs (spec.nodes.map (·.id)) 0 spec.edges).countP p = 0 :=
    hz _ (fun e he => by
      rcases mem_edgeErrs_type he with h | h <;> rw [h] <;> intro hEq
      · exact h3 hEq.symm
      · exact h4 hEq.symm)
  have z4 : (queueErrs (spec.nodes.map (·.id)) 0 spec.queues).countP p = 0 :=
    hz _ (fun e he => by
      rcases mem_queueErrs_type he with h | h <;> rw [h] <;> intro hEq
      · exact h5 hEq.symm
      · exact h6 hEq.symm)
  have z5 : (nodesErrs (spec.sources.map (·.id)) spec.nodes).countP p = 0 :=
    hz _ (fun e he => by
      rcases mem_nodesErrs_type he with h | h <;> rw [h] <;> intro hEq
      · exact h7 hEq.symm
      · exact h8 hEq.symm)
  have z6 : (sourcesErrs spec.sources).countP p = 0 :=
    hz _ (fun e he => by
      rw [mem_sourcesErrs_type he]
      intro hEq
      exact h8 hEq.symm)
  have z7 : (orphanErrs spec (spec.nodes.map (·.id))).countP p = 0 :=
    hz _ (fun e he => by
      rw [mem_orphanErrs_type he]
      intro hEq
      exact h9 hEq.symm)
  dsimp only [validate_workflow, validate_edges, validate_queues]
  simp only [List.countP_append]
  rw [z2, z3, z4, z5, z6, z7]
  omega

/-- C4: for every spec and id `x`, the number of DUPLICATE_NODE_ID issues
for `x` reported by `validate_workflow` is exactly one less than the
number of occurrences of `x` among the node ids (so `k - 1` issues for
`k > 1` occurrences, and none when `x` occurs at most once); and
analogously for duplicate source ids and duplicate queue ids. -/
theorem duplicate_id_issue_count (spec : WSpec) (x : String) :
    ((validate_workflow spec).countP
        (fun e => e.type == "duplicate_node_id" && e.node_id == some x)) =
      (spec.nodes.map NodeM.id).count x - 1 ∧
    ((validate_workflow spec).countP
        (fun e => e.type == "duplicate_source_id" &&
          e.message == "Duplicate source ID: " ++ q x)) =
      (spec.sources.map SourceM.id).count x - 1 ∧
    ((validate_workflow spec).countP
        (fun e => e.type == "duplicate_queue_id" &&
          e.message == "Duplicate queue ID: " ++ q x)) =
      (spec.queues.map QueueM.id).count x - 1 := by
  refine ⟨?_, ?_, ?_⟩
  · have zs : (dupErrs mkDupSource (spec.sources.map (·.id)) []).countP
        (fun e => e.type == "duplicate_node_id" && e.node_id == some x) = 0 :=
      List.countP_eq_zero.mpr (fun e he => by
        obtain ⟨i, rfl⟩ := mem_dupErrs he
        simp [mkDupSource])
    have zq : (dupErrs mkDupQueue (spec.queues.map (·.id)) []).countP
        (fun e => e.type == "duplicate_node_id" && e.node_id == some x) = 0 :=
      List.countP_eq_zero.mpr (fun e he => by
        obtain ⟨i, rfl⟩ := mem_dupErrs he
        simp [mkDupQueue])
    rw [countP_validate_restrict spec _ "duplicate_node_id"
      (fun e hpe => beq_iff_eq.mp (Bool.and_eq_true _ _ |>.mp hpe).1)
      (by refine ⟨?_, ?_, ?_, ?_, ?_, ?_, ?_, ?_, ?_⟩ <;> decide)]
    unfold validate_no_duplicates
    simp only [List.countP_append]
    rw [zs, zq,
      countP_dupErrs mkDupNode _ x (fun i => by
        by_cases hix : i = x <;> simp [mkDupNode, hix])]
    simp
  · have zn : (dupErrs mkDupNode (spec.nodes.map (·.id)) []).countP
        (fun e => e.type == "duplicate_source_id" &&
          e.message == "Duplicate source ID: " ++ q x) = 0 :=
      List.countP_eq_zero.mpr (fun e he => by
        obtain ⟨i, rfl⟩ := mem_dupErrs he
        simp [mkDupNode])
    have zq : (dupErrs mkDupQueue (spec.queues.map (·.id)) []).countP
        (fun e => e.type == "duplicate_source_id" &&
          e.message == "Duplicate source ID: " ++ q x) = 0 :=
      List.countP_eq_zero.mpr (fun e he => by
        obtain ⟨i, rfl⟩ := mem_dupErrs he
        simp [mkDupQueue])
    rw [countP_validate_restrict spec _ "duplicate_source_id"
      (fun e hpe => beq_iff_eq.mp (Bool.and_eq_true _ _ |>.mp hpe).1)
      (by refine ⟨?_, ?_, ?_, ?_, ?_, ?_, ?_, ?_, ?_⟩ <;> decide)]
    unfold validate_no_duplicates
    simp only [List.countP_append]
    rw [zn, zq,
      countP_dupErrs mkDupSource _ x (fun i => by
        by_cases hix : i = x
        · simp [mkDupSource, hix]
        · have hmsg : ¬ ("Duplicate source ID: " ++ q i =
              "Duplicate source ID: " ++ q x) := fun hEq =>
            hix (q_inj (strAppend_right_inj hEq))
          simp [mkDupSource, hix, hmsg])]
    simp
  · have zn : (dupErrs mkDupNode (spec.nodes.map (·.id)) []).countP
        (fun e => e.type == "duplicate_queue_id" &&
          e.message == "Duplicate queue ID: " ++ q x) = 0 :=
      List.countP_eq_zero.mpr (fun e he => by
        obtain ⟨i, rfl⟩ := mem_dupErrs he
        simp [mkDupNode])
    have zs : (dupErrs mkDupSource (spec.sources.map (·.id)) []).countP
        (fun e => e.type == "duplicate_queue_id" &&
          e.message == "Duplicate queue ID: " ++ q x) = 0 :=
      List.countP_eq_zero.mpr (fun e he => by
        obtain ⟨i, rfl⟩ := mem_dupErrs he
        simp [mkDupSource])
    rw [countP_validate_restrict spec _ "duplicate_queue_id"
      (fun e hpe => beq_iff_eq.mp (Bool.and_eq_true _ _ |>.mp hpe).1)
      (by refine ⟨?_, ?_, ?_, ?_, ?_, ?_, ?_, ?_, ?_⟩ <;> decide)]
    unfold validate_no_duplicates
    simp only [List.countP_append]
    rw [zn, zs,
      countP_dupErrs mkDupQueue _ x (fun i => by
        by_cases hix : i = x
        · simp [mkDupQueue, hix]
        · have hmsg : ¬ ("Duplicate queue ID: " ++ q i =
              "Duplicate queue ID: " ++ q x) := fun hEq =>
            hix (q_inj (strAppend_right_inj hEq))
          simp [mkDupQueue, hix, hmsg])]
    simp

/-! ## C3: what it takes for `validate_workflow` to return no issues -/

/-- C3 counterexample: `exOrphanSpec` resolves every edge, queue and
start-node reference and satisfies every per-type config requirement
(all five corresponding checks return `[]`), yet `validate_workflow`
returns a non-empty list — node `b` is orphaned, so reference resolution
plus config requirements alone do not make the issue list empty. -/
theorem validate_nonempty_on_resolving_spec :
    validate_start_node exOrphanSpec (exOrphanSpec.nodes.map (·.id)) = [] ∧
    validate_edges exOrphanSpec (exOrphanSpec.nodes.map (·.id)) = [] ∧
    validate_queues exOrphanSpec (exOrphanSpec.nodes.map (·.id)) = [] ∧
    nodesErrs (exOrphanSpec.sources.map (·.id)) exOrphanSpec.nodes = [] ∧
    sourcesErrs exOrphanSpec.sources = [] ∧
    validate_no_duplicates exOrphanSpec = [] ∧
    validate_workflow exOrphanSpec ≠ [] := by
  refine ⟨rfl, rfl, rfl, rfl, rfl, rfl, ?_⟩
  decide

/-- C3 (amended): `validate_workflow` always returns the concatenation of
the issues of every individual check, in order, never stopping at the
first problem; and the returned list is empty exactly when, additionally
to every edge, queue and start-node reference resolving and every
per-type config requirement holding, the node, source and queue ids are
duplicate-free and every node other than the start node is the target of
some edge or queue. -/
theorem validate_workflow_amended :
    (∀ spec : WSpec,
      validate_workflow spec =
        validate_no_duplicates spec ++
          validate_start_node spec (spec.nodes.map (·.id)) ++
          validate_edges spec (spec.nodes.map (·.id)) ++
          validate_queues spec (spec.nodes.map (·.id)) ++
          nodesErrs (spec.sources.map (·.id)) spec.nodes ++
          sourcesErrs spec.sources ++
          orphanErrs spec (spec.nodes.map (·.id))) ∧
    (∀ spec : WSpec,
      (spec.nodes.map NodeM.id).Nodup →
      (spec.sources.map SourceM.id).Nodup →
      (spec.queues.map QueueM.id).Nodup →
      spec.start_node ≠ "" →
      spec.start_node ∈ spec.nodes.map NodeM.id →
      (∀ e ∈ spec.edges, e.from_node ∈ spec.nodes.map NodeM.id ∧
        ∀ t ∈ e.to_nodes, t ∈ spec.nodes.map NodeM.id) →
      (∀ qu ∈ spec.queues, qu.from_node ∈ spec.nodes.map NodeM.id ∧
        qu.to_node ∈ spec.nodes.map NodeM.id) →
      (∀ n ∈ spec.nodes, nodeCfgOk (spec.sources.map SourceM.id) n = true) →
      (∀ s ∈ spec.sources, sourceCfgOk s = true) →
      (∀ n ∈ spec.nodes, n.id = spec.start_node ∨
        (∃ e ∈ spec.edges, n.id ∈ e.to_nodes) ∨
        (∃ qu ∈ spec.queues, n.id = qu.to_node)) →
      validate_workflow spec = []) := by
  refine ⟨fun spec => rfl,
    fun spec hn hs hq hne hin hed hqu hnc hsc hor => ?_⟩
  have hdup : validate_no_duplicates spec = [] := by
    unfold validate_no_duplicates
    rw [dupErrs_eq_nil mkDupNode _ [] hn (by simp),
      dupErrs_eq_nil mkDupSource _ [] hs (by simp),
      dupErrs_eq_nil mkDupQueue _ [] hq (by simp)]
    rfl
  dsimp only [validate_workflow, validate_edges, validate_queues]
  rw [hdup, startErrs_eq_nil hne hin, edgeErrs_eq_nil hed 0,
    queueErrs_eq_nil hqu 0, nodesErrs_eq_nil hnc, sourcesErrs_eq_nil hsc,
    orphanErrs_eq_nil hor]
  rfl

theorem validate_workflow_amended_witness :
    validate_workflow exGoodSpec = [] :=
  validate_workflow_amended.2 exGoodSpec (by decide) (by decide) (by decide)
    (by decide) (by decide) (by decide) (by decide) (by decide) (by decide)
    (by decide)

/-! ## C10: reference checks never fire on a constructible model -/

/-- C10: for every specification satisfying the construction-time
invariant of `WorkflowSpecModel` (its pydantic `model_validator` rejects
any spec whose `start_node`, edge endpoint or queue endpoint is missing
from the node ids, and `NodeModel.id` has `min_length=1`),
`validate_workflow` produces no issue of type INVALID_START_NODE,
INVALID_EDGE_SOURCE, INVALID_EDGE_TARGET, INVALID_QUEUE_SOURCE or
INVALID_QUEUE_TARGET. -/
theorem constructible_spec_reference_checks (spec : WSpec)
    (hids : ∀ n ∈ spec.nodes, n.id ≠ "")
    (hstart : spec.start_node ∈ spec.nodes.map NodeM.id)
    (hedges : ∀ e ∈ spec.edges, e.from_node ∈ spec.nodes.map NodeM.id ∧
      ∀ t ∈ e.to_nodes, t ∈ spec.nodes.map NodeM.id)
    (hqueues : ∀ qu ∈ spec.queues, qu.from_node ∈ spec.nodes.map NodeM.id ∧
      qu.to_node ∈ spec.nodes.map NodeM.id) :
    ∀ e ∈ validate_workflow spec,
      e.type ≠ "start_node_invalid" ∧ e.type ≠ "edge_source_invalid" ∧
      e.type ≠ "edge_target_invalid" ∧ e.type ≠ "queue_source_invalid" ∧
      e.type ≠ "queue_target_invalid" := by
  have hne : spec.start_node ≠ "" := by
    obtain ⟨n, hn, hid⟩ := List.mem_map.mp hstart
    exact hid ▸ hids n hn
  intro e he
  dsimp only [validate_workflow, validate_edges, validate_queues] at he
  rw [startErrs_eq_nil hne hstart, edgeErrs_eq_nil hedges 0,
    queueErrs_eq_nil hqueues 0] at he
  simp only [List.append_nil, List.nil_append, List.mem_append] at he
  rcases he with ((hd | hn2) | hs2) | ho
  · unfold validate_no_duplicates at hd
    rcases List.mem_append.mp hd with hd2 | hdq
    · rcases List.mem_append.mp hd2 with hdn | hds
      · obtain ⟨i, rfl⟩ := mem_dupErrs hdn
        refine ⟨?_, ?_, ?_, ?_, ?_⟩ <;> simp [mkDupNode]
      · obtain ⟨i, rfl⟩ := mem_dupErrs hds
        refine ⟨?_, ?_, ?_, ?_, ?_⟩ <;> simp [mkDupSource]
    · obtain ⟨i, rfl⟩ := mem_dupErrs hdq
      refine ⟨?_, ?_, ?_, ?_, ?_⟩ <;> simp [mkDupQueue]
  · rcases mem_nodesErrs_type hn2 with h | h <;> rw [h] <;>
      refine ⟨?_, ?_, ?_, ?_, ?_⟩ <;> decide
  · rw [mem_sourcesErrs_type hs2]
    refine ⟨?_, ?_, ?_, ?_, ?_⟩ <;> decide
  · rw [mem_orphanErrs_type ho]
    refine ⟨?_, ?_, ?_, ?_, ?_⟩ <;> decide

theorem constructible_spec_reference_checks_witness :
    orphanIssueB.type ≠ "start_node_invalid" ∧
      orphanIssueB.type ≠ "edge_source_invalid" ∧
      orphanIssueB.type ≠ "edge_target_invalid" ∧
      orphanIssueB.type ≠ "queue_source_invalid" ∧
      orphanIssueB.type ≠ "queue_target_invalid" :=
  constructible_spec_reference_checks exOrphanSpec (by decide) (by decide)
    (by decide) (by decide) orphanIssueB (by decide)

end AgentFlow
